import Mathlib

/-!
Verification of the crop/stitch tiling utilities (`img_utils.py`) of the
PythonHelpers repository.

Shallow embedding conventions:
* Python integers are `Int` (corner generation, where `im_dims - crop_size`
  may go negative) or `Nat` (pixel samples, which are non-negative image
  data; the accumulation buffer is a numpy array of dtype `int`, and
  storing the float `(a + b) / 2.0` into it truncates toward zero, which on
  non-negative data is `Nat` floor division).
* `range(start, stop, step)` is modelled by `pyRange`, including the
  `ValueError` Python raises for `step = 0`.  The source calls
  `c_indices.append(...)` on the result of `range`, i.e. it relies on the
  Python-2 behaviour where `range` returns a list; we model the appended
  list.
* PIL images are `PILImage`: a mode string, a `(width, height)` size, and a
  pixel function `pix x y` (meaningful for `x < width`, `y < height`).
  `numpy` 2-D slice assignment `buf[r0:r1, c0:c1] = blended` is modelled by
  pointwise update of the buffer function on the tile's footprint.
* Failures (Python exceptions) are `Except` errors.  The constructor names
  follow the spec's error taxonomy; each is raised at the exact program
  point where the Python code raises (`valueError` for `range(_, _, 0)`,
  `emptyInput` for the `IndexError` of `crop_imgs[0]` on an empty list,
  `modeMismatch` for the failing `assert` on crop modes).
-/

/-- Errors surfaced by the embedded operations. -/
inductive StitchError where
  | valueError : StitchError      -- Python ValueError from range(_, _, 0)
  | emptyInput : StitchError      -- IndexError from crop_imgs[0] on []
  | modeMismatch : StitchError    -- AssertionError from the mode check
  deriving Repr, DecidableEq

/-- Python `range(start, stop, step)` for `step > 0`: the ascending list
`start, start+step, ...` of all values `< stop`. -/
def pyRangeAsc (start stop step : Int) : List Int :=
  (List.range (((stop - start).toNat + step.toNat - 1) / step.toNat)).map
    (fun i : Nat => start + step * (i : Int))

/-- Python `range(start, stop, step)` for `step < 0`: the descending list
`start, start+step, ...` of all values `> stop`. -/
def pyRangeDesc (start stop step : Int) : List Int :=
  (List.range (((start - stop).toNat + (-step).toNat - 1) / (-step).toNat)).map
    (fun i : Nat => start + step * (i : Int))

/-- Python `range(start, stop, step)`; `step = 0` raises `ValueError`. -/
def pyRange (start stop step : Int) : Except StitchError (List Int) :=
  if step = 0 then .error .valueError
  else if 0 < step then .ok (pyRangeAsc start stop step)
  else .ok (pyRangeDesc start stop step)

/-- `_gridCropCorners(im_dims, crop_size, stride_size, include_excess)`:
the x-offsets are `range(0, W - tw, sw)` (with the boundary `W - tw`
appended when `include_excess`), the y-offsets likewise, and the corners
are their Cartesian product, outer-x inner-y. `stride_size = none` defaults
to `crop_size`. -/
def _gridCropCorners (im_dims crop_size : Int × Int)
    (stride_size : Option (Int × Int) := none) (include_excess : Bool := true) :
    Except StitchError (List (Int × Int)) := do
  let stride := stride_size.getD crop_size
  let cBase ← pyRange 0 (im_dims.1 - crop_size.1) stride.1
  let rBase ← pyRange 0 (im_dims.2 - crop_size.2) stride.2
  let c_indices := if include_excess then cBase ++ [im_dims.1 - crop_size.1] else cBase
  let r_indices := if include_excess then rBase ++ [im_dims.2 - crop_size.2] else rBase
  return c_indices.flatMap (fun c => r_indices.map (fun r => (c, r)))

/-- A PIL image: mode string, `size = (width, height)`, pixel access
`pix x y` (column `x`, row `y`). -/
structure PILImage where
  mode : String
  size : Nat × Nat
  pix : Nat → Nat → Nat

/-- A crop dict `{'img': ..., 'corner': ...}`. -/
structure Crop where
  img : PILImage
  corner : Nat × Nat

/-- The blend dispatch of `stitchCrops`/`stitchBinary` on a pixel pair
(existing buffer value, incoming crop value).  The `average` branch is the
float mean `(a+b)/2.0` whose write-back into the `int`-typed buffer
truncates: on `Nat` data this is floor division by 2.  Any method other
than `or`/`and`/`average` also averages (after warning, see
`blendWarns`). -/
def blendPixel (method : String) (existing incoming : Nat) : Nat :=
  if method = "or" then existing ||| incoming
  else if method = "and" then existing &&& incoming
  else if method = "average" then (existing + incoming) / 2
  else (existing + incoming) / 2

/-- `True` exactly when the blend dispatch falls through to the `else`
branch that emits the non-fatal `UserWarning`. -/
def blendWarns (method : String) : Bool :=
  ¬(method = "or" ∨ method = "and" ∨ method = "average")

/-- Whether pixel `(x, y)` lies in the footprint
`[corner, corner + size)` of a crop. -/
def inFootprint (c : Crop) (x y : Nat) : Bool :=
  c.corner.1 ≤ x && x < c.corner.1 + c.img.size.1 &&
    c.corner.2 ≤ y && y < c.corner.2 + c.img.size.2

/-- One iteration of the stitch loop: read the buffer region covered by the
crop, blend with the crop's samples, write the result back in place. -/
def placeCrop (method : String) (buf : Nat → Nat → Nat) (c : Crop) :
    Nat → Nat → Nat :=
  fun x y =>
    if inFootprint c x y then
      blendPixel method (buf x y) (c.img.pix (x - c.corner.1) (y - c.corner.2))
    else buf x y

/-- The output dimensions computed by both stitch functions:
`(max corner.x) + (max width)` and `(max corner.y) + (max height)`,
each maximum taken independently over all crops (initialised at 0). -/
def stitchDims (crops : List Crop) : Nat × Nat :=
  (crops.foldl (fun m c => max m c.corner.1) 0 +
     crops.foldl (fun m c => max m c.img.size.1) 0,
   crops.foldl (fun m c => max m c.corner.2) 0 +
     crops.foldl (fun m c => max m c.img.size.2) 0)

/-- `stitchCrops(crop_imgs, method)`: read the mode of the first crop
(IndexError on an empty list), assert all crops share it, compute the
output dimensions, then fold every crop into a zero-initialised `int`
buffer with `placeCrop`. -/
def stitchCrops (crop_imgs : List Crop) (method : String := "average") :
    Except StitchError PILImage :=
  match crop_imgs with
  | [] => .error .emptyInput
  | c0 :: _ =>
    let mode := c0.img.mode
    if crop_imgs.all (fun c => c.img.mode = mode) then
      .ok { mode := mode
            size := stitchDims crop_imgs
            pix := crop_imgs.foldl (placeCrop method) (fun _ _ => 0) }
    else .error .modeMismatch

/-- `np.array_equal(crop['img'], crop['img'].astype(bool))`: every sample of
the crop is 0 or 1. -/
def cropIsBinary (c : Crop) : Bool :=
  (List.range c.img.size.1).all fun x =>
    (List.range c.img.size.2).all fun y => c.img.pix x y ≤ 1

/-- `stitchBinary(crop_imgs, method)`: the binary-validation loop evaluates
`np.array_equal(crop['img'], crop['img'].astype(bool))` for each crop but
its `if` has an empty body in the source (a no-op), so nothing is rejected;
the rest is the same dimension computation and stitch loop as
`stitchCrops`, without the mode check (the output of `Image.fromarray` on
an `int` array has mode `"I"`). -/
def stitchBinary (crop_imgs : List Crop) (method : String := "average") :
    Except StitchError PILImage :=
  .ok { mode := "I"
        size := stitchDims crop_imgs
        pix := crop_imgs.foldl (placeCrop method) (fun _ _ => 0) }

/-- The spec's formula for the output dimensions of a merge: the smallest
bounding rectangle of all footprints, `max over tiles of (corner + size)`
componentwise.  Stated from the spec's words, for comparison with the
source's `stitchDims`. -/
def specStitchDims (crops : List Crop) : Nat × Nat :=
  (crops.foldl (fun m c => max m (c.corner.1 + c.img.size.1)) 0,
   crops.foldl (fun m c => max m (c.corner.2 + c.img.size.2)) 0)

/-- The samples deposited on pixel `(x, y)`, in tile input order: one for
each crop whose footprint contains the pixel. -/
def coveringValues (crops : List Crop) (x y : Nat) : List Nat :=
  (crops.filter (fun c => inFootprint c x y)).map
    (fun c => c.img.pix (x - c.corner.1) (y - c.corner.2))

/-- Direct placement of each tile's samples at its corner (no blending;
later tiles overwrite earlier ones, immaterial on disjoint tiles).  Stated
from the spec's words, for comparison with the merge output. -/
def directPlace (crops : List Crop) : Nat → Nat → Nat :=
  crops.foldl
    (fun b c => fun x y =>
      if inFootprint c x y then c.img.pix (x - c.corner.1) (y - c.corner.2)
      else b x y)
    (fun _ _ => 0)

/-- Bounded (hence decidable) check that the footprints of two crops are
disjoint: no pixel of `a`'s footprint lies in `b`'s footprint. -/
def footprintsDisjoint (a b : Crop) : Bool :=
  (List.range a.img.size.1).all fun dx =>
    (List.range a.img.size.2).all fun dy =>
      !(inFootprint b (a.corner.1 + dx) (a.corner.2 + dy))

/-- Whether the footprint `[c, c + tile)` of a generated corner `c` (for a
tile of size `tile`) contains the integer point `(x, y)`. -/
def coversB (tile : Int × Int) (c : Int × Int) (x y : Int) : Bool :=
  (c.1 ≤ x && x < c.1 + tile.1) && (c.2 ≤ y && y < c.2 + tile.2)

/-- A crop whose samples are all `v`, of size `(w, h)`, at corner
`(cx, cy)`. -/
def constCrop (mode : String) (w h cx cy v : Nat) : Crop :=
  { img := { mode := mode, size := (w, h), pix := fun _ _ => v }
    corner := (cx, cy) }

/-! Helper lemmas about `pyRangeAsc` and the generated offset lists. -/

/-- Counting elements of an ascending Python range: index `i` is in range
exactly when `sn * i` is below the stop value (ceiling-division bound). -/
theorem lt_ceilDiv_iff (i t sn : Nat) (h : 0 < sn) :
    i < (t + sn - 1) / sn ↔ sn * i < t := by
  rw [Nat.lt_iff_add_one_le, Nat.le_div_iff_mul_le h]
  have h1 : (i + 1) * sn = sn * i + sn := by ring
  omega

/-- Membership in `pyRangeAsc 0 stop s` for positive step `s`: exactly the
multiples `s * i` below `stop`. -/
theorem mem_pyRangeAsc (s stop a : Int) (hs : 0 < s) :
    a ∈ pyRangeAsc 0 stop s ↔ ∃ i : Nat, a = s * i ∧ s * i < stop := by
  have hsn : (s.toNat : Int) = s := Int.toNat_of_nonneg hs.le
  unfold pyRangeAsc
  rw [List.mem_map]
  constructor
  · rintro ⟨i, hi, hfi⟩
    rw [List.mem_range, lt_ceilDiv_iff i _ s.toNat (by omega)] at hi
    have hcast : ((s.toNat * i : Nat) : Int) = s * i := by push_cast [hsn]; ring
    exact ⟨i, by omega, by omega⟩
  · rintro ⟨i, rfl, hlt⟩
    refine ⟨i, ?_, by ring⟩
    rw [List.mem_range, lt_ceilDiv_iff i _ s.toNat (by omega)]
    have hcast : ((s.toNat * i : Nat) : Int) = s * i := by push_cast [hsn]; ring
    omega

/-- Coverage along one axis: with `0 < s ≤ tw` every in-bounds coordinate
`x` is covered by some offset of the excess-appended offset list. -/
theorem offsets1D_cover (W tw s x : Int) (hs : 0 < s) (hst : s ≤ tw)
    (hx0 : 0 ≤ x) (hxW : x < W) :
    ∃ c ∈ pyRangeAsc 0 (W - tw) s ++ [W - tw], c ≤ x ∧ x < c + tw := by
  by_cases hxb : W - tw ≤ x
  · exact ⟨W - tw, List.mem_append_right _ (List.mem_singleton.mpr rfl), hxb, by omega⟩
  · push_neg at hxb
    have hsn0 : 0 < s.toNat := by omega
    have hsn : (s.toNat : Int) = s := Int.toNat_of_nonneg hs.le
    have hxn : ((x.toNat : Nat) : Int) = x := Int.toNat_of_nonneg hx0
    have hdm := Nat.div_add_mod x.toNat s.toNat
    have hml := Nat.mod_lt x.toNat hsn0
    have hcast : ((s.toNat * (x.toNat / s.toNat) : Nat) : Int)
        = s * ((x.toNat / s.toNat : Nat) : Int) := by push_cast [hsn]; ring
    refine ⟨s * ((x.toNat / s.toNat : Nat) : Int),
      List.mem_append_left _ ((mem_pyRangeAsc s (W - tw) _ hs).mpr
        ⟨x.toNat / s.toNat, rfl, by omega⟩), by omega, by omega⟩

/-- Every offset of the generated list (with or without the excess
boundary) keeps its tile inside `[0, W)` when `tw ≤ W`. -/
theorem offsets1D_inbounds (W tw s c : Int) (hs : 0 < s) (htW : tw ≤ W) (b : Bool)
    (hc : c ∈ (if b then pyRangeAsc 0 (W - tw) s ++ [W - tw]
               else pyRangeAsc 0 (W - tw) s)) :
    0 ≤ c ∧ c + tw ≤ W := by
  have hbase : c ∈ pyRangeAsc 0 (W - tw) s → 0 ≤ c ∧ c + tw ≤ W := by
    intro h
    obtain ⟨i, rfl, hlt⟩ := (mem_pyRangeAsc s (W - tw) c hs).mp h
    have : (0 : Int) ≤ s * i := mul_nonneg hs.le (Int.natCast_nonneg i)
    omega
  cases b with
  | false => exact hbase (by simpa using hc)
  | true =>
    rcases (by simpa using hc : c ∈ pyRangeAsc 0 (W - tw) s ∨ c = W - tw) with h | h
    · exact hbase h
    · omega

/-- Reduction of `_gridCropCorners` for positive strides: both `range`
calls succeed and the result is the Cartesian product of the two
(optionally excess-appended) offset lists. -/
theorem gridCropCorners_pos (W H tw th sw sh : Int) (b : Bool)
    (hsw : 0 < sw) (hsh : 0 < sh) :
    _gridCropCorners (W, H) (tw, th) (some (sw, sh)) b =
      .ok ((if b then pyRangeAsc 0 (W - tw) sw ++ [W - tw]
            else pyRangeAsc 0 (W - tw) sw).flatMap
        (fun c => (if b then pyRangeAsc 0 (H - th) sh ++ [H - th]
                   else pyRangeAsc 0 (H - th) sh).map
          (fun r => (c, r)))) := by
  simp [_gridCropCorners, pyRange, hsw, hsh, hsw.ne', hsh.ne']
  rfl

/-- Membership in the Cartesian-product corner list is componentwise. -/
theorem mem_prodCorners (l1 l2 : List Int) (p : Int × Int) :
    p ∈ l1.flatMap (fun c => l2.map (fun r => (c, r))) ↔ p.1 ∈ l1 ∧ p.2 ∈ l2 := by
  cases p with
  | mk a bb =>
    simp only [List.mem_flatMap, List.mem_map, Prod.mk.injEq]
    aesop

/-- With tile = stride = `s` and an exactly divisible extent `kw * s`, the
excess-appended offset list is precisely `0, s, …, (kw-1)·s`. -/
theorem offsets_exact_eq (s kw : Nat) (hs : 0 < s) (hkw : 1 ≤ kw) :
    pyRangeAsc 0 ((kw : Int) * s - s) s ++ [(kw : Int) * s - s] =
      (List.range kw).map (fun i : Nat => (s : Int) * i) := by
  obtain ⟨k, rfl⟩ : ∃ k, kw = k + 1 := ⟨kw - 1, by omega⟩
  have hstop : ((k + 1 : Nat) : Int) * s - s = ((k * s : Nat) : Int) := by
    push_cast; ring
  have hsn : ((s : Int)).toNat = s := Int.toNat_natCast s
  unfold pyRangeAsc
  rw [hstop]
  have hn : (((k * s : Nat) : Int) - 0).toNat = k * s := by
    rw [sub_zero, Int.toNat_natCast]
  rw [hn, hsn]
  have hcount : (k * s + s - 1) / s = k := by
    have h1 : k * s + s - 1 = (s - 1) + s * k := by
      have : k * s = s * k := Nat.mul_comm ..
      omega
    rw [h1, Nat.add_mul_div_left _ _ hs, Nat.div_eq_of_lt (by omega)]
    omega
  rw [hcount, List.range_succ, List.map_append]
  congr 1
  · exact List.map_congr_left fun i _ => by ring
  · simp
    ring

/-- Filtering `List.range n` by a predicate that holds exactly at `k`
keeps one element iff `k < n`. -/
theorem length_filter_range_eq_ite (n k : Nat) (q : Nat → Bool)
    (h : ∀ i, q i = true ↔ i = k) :
    ((List.range n).filter q).length = if k < n then 1 else 0 := by
  induction n with
  | zero => simp
  | succ n ih =>
    rw [List.range_succ, List.filter_append, List.length_append, ih]
    rcases Nat.lt_trichotomy k n with hk | hk | hk
    · have hq : q n = false := by
        rcases hqn : q n with _ | _
        · rfl
        · exact absurd ((h n).mp hqn) (by omega)
      simp [hq, if_pos hk, if_pos (by omega : k < n + 1)]
    · subst hk
      have hq : q k = true := (h k).mpr rfl
      simp [hq, if_neg (by omega : ¬ k < k), if_pos (by omega : k < k + 1)]
    · have hq : q n = false := by
        rcases hqn : q n with _ | _
        · rfl
        · exact absurd ((h n).mp hqn) (by omega)
      simp [hq, if_neg (by omega : ¬ k < n), if_neg (by omega : ¬ k < n + 1)]

/-- Counting corners of the Cartesian product that satisfy a componentwise
predicate multiplies the per-axis counts. -/
theorem length_filter_prod (l1 l2 : List Int) (px py : Int → Bool) :
    ((l1.flatMap (fun c => l2.map (fun r => (c, r)))).filter
        (fun p => px p.1 && py p.2)).length =
      (l1.filter px).length * (l2.filter py).length := by
  induction l1 with
  | nil => simp
  | cons c t ih =>
    rw [List.flatMap_cons, List.filter_append, List.length_append, ih,
      List.filter_cons]
    have hmap : ((l2.map (fun r => (c, r))).filter
        (fun p => px p.1 && py p.2)).length
        = if px c then (l2.filter py).length else 0 := by
      rw [List.filter_map, List.length_map]
      rcases hpc : px c with _ | _
      · rw [List.filter_congr (fun r _ => by simp [Function.comp, hpc] :
          ∀ r ∈ l2, (((fun p => px p.1 && py p.2) ∘ fun r => (c, r)) r) = false)]
        simp
      · rw [List.filter_congr (fun r _ => by simp [Function.comp, hpc] :
          ∀ r ∈ l2, (((fun p => px p.1 && py p.2) ∘ fun r => (c, r)) r) = py r)]
        simp
    rcases hpc : px c with _ | _
    · simp [hmap, hpc]
    · simp only [hmap, hpc, if_pos, List.length_cons]
      ring

/-- Characterisation of Euclidean division: `i = m / s` exactly when `m`
lies in `[s·i, s·i + s)`. -/
theorem nat_div_char (m s i : Nat) (hs : 0 < s) :
    (s * i ≤ m ∧ m < s * i + s) ↔ i = m / s := by
  constructor
  · rintro ⟨h1, h2⟩
    have hcomm : i * s = s * i := Nat.mul_comm ..
    have hcomm2 : (i + 1) * s = s * i + s := by ring
    exact (Nat.div_eq_of_lt_le (by omega) (by omega)).symm
  · rintro rfl
    have hdm := Nat.div_add_mod m s
    have hml := Nat.mod_lt m hs
    omega

/-- On an exactly divisible axis with tile = stride = `s`, each in-bounds
coordinate is covered by exactly one of the `kw` offsets. -/
theorem exact_offsets_count_one (s kw : Nat) (hs : 0 < s) (x : Int)
    (hx0 : 0 ≤ x) (hxW : x < (kw : Int) * s) :
    (((List.range kw).map (fun i : Nat => (s : Int) * i)).filter
        (fun c => c ≤ x && x < c + s)).length = 1 := by
  have hxn : ((x.toNat : Nat) : Int) = x := Int.toNat_of_nonneg hx0
  have hk : x.toNat / s < kw := by
    have hcomm : kw * s = s * kw := Nat.mul_comm ..
    refine Nat.div_lt_of_lt_mul ?_
    have hcast : ((s * kw : Nat) : Int) = (s : Int) * kw := by push_cast; ring
    have hcast2 : ((kw : Nat) : Int) * (s : Int) = (s : Int) * kw := by ring
    omega
  rw [List.filter_map, List.length_map]
  rw [List.filter_congr (fun i _ => ?_ :
    ∀ i ∈ List.range kw,
      (((fun c => c ≤ x && x < c + s) ∘ fun i : Nat => (s : Int) * i) i) =
        decide (i = x.toNat / s))]
  · rw [length_filter_range_eq_ite kw (x.toNat / s) _ (fun i => by simp),
      if_pos hk]
  · have hcast : ((s * i : Nat) : Int) = (s : Int) * i := by push_cast; ring
    have hchar := nat_div_char x.toNat s i hs
    simp only [Function.comp]
    rw [Bool.and_eq_decide]
    refine decide_eq_decide.mpr ⟨fun hp => hchar.mp (by omega), fun hp => ?_⟩
    have := hchar.mpr hp
    omega

/-! Helper lemmas about the stitch loop's accumulation buffer. -/

/-- The stitch fold evaluated at one pixel is the left fold of the blend
operator over exactly the samples of the crops covering that pixel. -/
theorem foldl_placeCrop_eq (method : String) (crops : List Crop)
    (b : Nat → Nat → Nat) (x y : Nat) :
    (crops.foldl (placeCrop method) b) x y =
      (coveringValues crops x y).foldl (blendPixel method) (b x y) := by
  induction crops generalizing b with
  | nil => rfl
  | cons c t ih =>
    rw [List.foldl_cons, ih]
    simp only [coveringValues, List.filter_cons]
    rcases hf : inFootprint c x y with _ | _
    · simp only [Bool.false_eq_true, if_neg, placeCrop, hf, ite_false]
    · simp only [if_pos, List.map_cons, List.foldl_cons, placeCrop, hf, ite_true]

/-- Direct placement evaluated at one pixel is the last-wins fold over the
samples of the crops covering that pixel. -/
theorem foldl_directPlace_eq (crops : List Crop) (b : Nat → Nat → Nat)
    (x y : Nat) :
    (crops.foldl
      (fun b c => fun x y =>
        if inFootprint c x y then c.img.pix (x - c.corner.1) (y - c.corner.2)
        else b x y) b) x y =
      (coveringValues crops x y).foldl (fun _ v => v) (b x y) := by
  induction crops generalizing b with
  | nil => rfl
  | cons c t ih =>
    rw [List.foldl_cons, ih]
    simp only [coveringValues, List.filter_cons]
    rcases hf : inFootprint c x y with _ | _
    · simp only [Bool.false_eq_true, if_neg, hf, ite_false]
    · simp only [if_pos, List.map_cons, List.foldl_cons, hf, ite_true]

/-- Soundness of the bounded disjointness check: if it passes, no pixel
lies in both footprints. -/
theorem footprintsDisjoint_spec (a b : Crop) (x y : Nat)
    (hd : footprintsDisjoint a b = true) (ha : inFootprint a x y = true) :
    inFootprint b x y = false := by
  simp only [inFootprint, Bool.and_eq_true, decide_eq_true_eq] at ha
  obtain ⟨⟨⟨h1, h2⟩, h3⟩, h4⟩ := ha
  simp only [footprintsDisjoint, List.all_eq_true, List.mem_range] at hd
  have := hd (x - a.corner.1) (by omega) (y - a.corner.2) (by omega)
  rw [Bool.not_eq_true'] at this
  rw [show a.corner.1 + (x - a.corner.1) = x by omega,
    show a.corner.2 + (y - a.corner.2) = y by omega] at this
  exact this

/-- On a pairwise-disjoint crop list, at most one crop covers any pixel. -/
theorem pairwise_disjoint_filter_length (crops : List Crop) (x y : Nat)
    (hd : List.Pairwise (fun a b => footprintsDisjoint a b = true) crops) :
    (crops.filter (fun c => inFootprint c x y)).length ≤ 1 := by
  have hp := hd.filter (fun c => inFootprint c x y)
  rcases hl : crops.filter (fun c => inFootprint c x y) with _ | ⟨a, _ | ⟨b, t⟩⟩
  · simp
  · simp
  · exfalso
    rw [hl] at hp
    have hab : footprintsDisjoint a b = true :=
      (List.pairwise_cons.mp hp).1 b (List.mem_cons_self ..)
    have hamem : a ∈ crops.filter (fun c => inFootprint c x y) := by
      rw [hl]; exact List.mem_cons_self ..
    have hbmem : b ∈ crops.filter (fun c => inFootprint c x y) := by
      rw [hl]; exact List.mem_cons_of_mem _ (List.mem_cons_self ..)
    have ha := List.of_mem_filter hamem
    have hb := List.of_mem_filter hbmem
    rw [footprintsDisjoint_spec a b x y hab ha] at hb
    cases hb

/-- Folding `max` over values shifted by a constant `t` shifts the fold. -/
theorem foldl_max_add (l : List Crop) (g : Crop → Nat) (t a : Nat) :
    l.foldl (fun m c => max m (g c + t)) (a + t) =
      l.foldl (fun m c => max m (g c)) a + t := by
  induction l generalizing a with
  | nil => rfl
  | cons c cs ih =>
    rw [List.foldl_cons, List.foldl_cons,
      show max (a + t) (g c + t) = max a (g c) + t by omega, ih]

/-- Folding `max` over a constant value `t` starting at `t` stays `t`. -/
theorem foldl_max_const (l : List Crop) (t : Nat) (f : Crop → Nat)
    (hf : ∀ c ∈ l, f c = t) :
    l.foldl (fun m c => max m (f c)) t = t := by
  induction l with
  | nil => rfl
  | cons c cs ih =>
    rw [List.foldl_cons, hf c (List.mem_cons_self ..),
      show max t t = t by omega]
    exact ih (fun c hc => hf c (List.mem_cons_of_mem _ hc))

/-- Fold congruence for `max` over pointwise-equal projections. -/
theorem foldl_max_congr (l : List Crop) (f g : Crop → Nat)
    (h : ∀ c ∈ l, f c = g c) (a : Nat) :
    l.foldl (fun m c => max m (f c)) a = l.foldl (fun m c => max m (g c)) a := by
  induction l generalizing a with
  | nil => rfl
  | cons c cs ih =>
    rw [List.foldl_cons, List.foldl_cons, h c (List.mem_cons_self ..)]
    exact ih (fun c hc => h c (List.mem_cons_of_mem _ hc)) _

/-- When all crops share one size, the source's
`max corner + max size` formula agrees with the spec's bounding-box
formula `max (corner + size)`. -/
theorem stitchDims_same_size (c0 : Crop) (crops : List Crop) (tw th : Nat)
    (hsize : ∀ c ∈ c0 :: crops, c.img.size = (tw, th)) :
    stitchDims (c0 :: crops) = specStitchDims (c0 :: crops) := by
  have h1 : ∀ c ∈ c0 :: crops, c.img.size.1 = tw := fun c hc => by rw [hsize c hc]
  have h2 : ∀ c ∈ c0 :: crops, c.img.size.2 = th := fun c hc => by rw [hsize c hc]
  unfold stitchDims specStitchDims
  refine Prod.ext ?_ ?_
  · show (c0 :: crops).foldl (fun m c => max m c.corner.1) 0 +
        (c0 :: crops).foldl (fun m c => max m c.img.size.1) 0 =
      (c0 :: crops).foldl (fun m c => max m (c.corner.1 + c.img.size.1)) 0
    rw [foldl_max_congr (c0 :: crops) (fun c => c.img.size.1) (fun _ => tw) h1,
      foldl_max_congr (c0 :: crops) (fun c => c.corner.1 + c.img.size.1)
        (fun c => c.corner.1 + tw) (fun c hc => by dsimp only; rw [h1 c hc])]
    rw [List.foldl_cons, List.foldl_cons, List.foldl_cons,
      show max 0 (c0.corner.1 + tw) = (max 0 c0.corner.1) + tw by omega]
    rw [foldl_max_add crops (fun c => c.corner.1) tw (max 0 c0.corner.1)]
    have hconst : crops.foldl (fun m _ => max m tw) (max 0 tw) = tw := by
      rw [show max 0 tw = tw by omega]
      exact foldl_max_const crops tw (fun _ => tw) (fun _ _ => rfl)
    omega
  · show (c0 :: crops).foldl (fun m c => max m c.corner.2) 0 +
        (c0 :: crops).foldl (fun m c => max m c.img.size.2) 0 =
      (c0 :: crops).foldl (fun m c => max m (c.corner.2 + c.img.size.2)) 0
    rw [foldl_max_congr (c0 :: crops) (fun c => c.img.size.2) (fun _ => th) h2,
      foldl_max_congr (c0 :: crops) (fun c => c.corner.2 + c.img.size.2)
        (fun c => c.corner.2 + th) (fun c hc => by dsimp only; rw [h2 c hc])]
    rw [List.foldl_cons, List.foldl_cons, List.foldl_cons,
      show max 0 (c0.corner.2 + th) = (max 0 c0.corner.2) + th by omega]
    rw [foldl_max_add crops (fun c => c.corner.2) th (max 0 c0.corner.2)]
    have hconst : crops.foldl (fun m _ => max m th) (max 0 th) = th := by
      rw [show max 0 th = th by omega]
      exact foldl_max_const crops th (fun _ => th) (fun _ _ => rfl)
    omega

/-- C8: `stitchCrops` on an empty crop list fails immediately (the
`crop_imgs[0]` mode read raises on an empty list), for every blend method —
the spec's `EmptyInput` error. -/
theorem stitchCrops_empty_fails (method : String) :
    stitchCrops [] method = .error .emptyInput := rfl

/-- C9: for every method name outside {or, and, average} — such as the
`xor` advertised by `stitchBinary`'s docstring — the blend dispatch hits
the warning branch (`blendWarns`), and both stitch functions compute
exactly what they compute under `average`; on the pixel pair (1, 1) the
unknown method yields 1 (the mean), not the 0 a bitwise XOR would give. -/
theorem stitch_unknown_method_warns_and_averages (method : String)
    (crops : List Crop)
    (h : ¬(method = "or" ∨ method = "and" ∨ method = "average")) :
    blendWarns method = true ∧
    stitchCrops crops method = stitchCrops crops ("average") ∧
    stitchBinary crops method = stitchBinary crops ("average") ∧
    blendPixel method 1 1 = 1 := by
  have h1 : ¬method = "or" := fun hc => h (.inl hc)
  have h2 : ¬method = "and" := fun hc => h (.inr (.inl hc))
  have h3 : ¬method = "average" := fun hc => h (.inr (.inr hc))
  have hb : blendPixel method = blendPixel ("average") := by
    funext e v
    simp [blendPixel, h1, h2, h3]
  have hp : placeCrop method = placeCrop ("average") := by
    funext buf c x y
    simp only [placeCrop, hb]
  refine ⟨by simp [blendWarns, h1, h2, h3], ?_, ?_, ?_⟩
  · cases crops with
    | nil => rfl
    | cons c cs => simp only [stitchCrops, hp]
  · simp only [stitchBinary, hp]
  · simp [blendPixel, h1, h2, h3]

/-- Witness for C9 at the advertised-but-unwired method name `xor` on a
concrete crop list. -/
theorem stitch_unknown_method_warns_and_averages_witness :
    blendWarns ("xor") = true ∧
    stitchCrops [constCrop ("L") 1 1 0 0 1] ("xor") =
      stitchCrops [constCrop ("L") 1 1 0 0 1] ("average") ∧
    stitchBinary [constCrop ("L") 1 1 0 0 1] ("xor") =
      stitchBinary [constCrop ("L") 1 1 0 0 1] ("average") ∧
    blendPixel ("xor") 1 1 = 1 :=
  stitch_unknown_method_warns_and_averages ("xor") [constCrop ("L") 1 1 0 0 1]
    (by decide)

/-- C10: the accumulation buffer is `int`-typed, so the `average` branch's
float mean is truncated at every write-back: the stored value is the floor
of `(existing + incoming) / 2` (on the buffer's non-negative data).  In
particular blending the untouched buffer value 0 with an incoming sample 1
stores 0, as the one-tile merge of a single sample 1 shows. -/
theorem stitchCrops_average_truncates_each_step :
    (∀ existing incoming : Nat,
      blendPixel ("average") existing incoming = (existing + incoming) / 2) ∧
    blendPixel ("average") 0 1 = 0 ∧
    (stitchCrops [constCrop ("L") 1 1 0 0 1] ("average")).toOption.map
      (fun i => i.pix 0 0) = some 0 :=
  ⟨fun _ _ => rfl, rfl, rfl⟩

/-- C6 (code evaluated at the failing input): the binary-validation `if` in
`stitchBinary` has an empty body, so a crop whose sample is 2 — which the
check `np.array_equal(img, img.astype(bool))` does flag (`cropIsBinary` is
`false`) — is silently merged, and the non-binary sample 2 even reaches the
output raster instead of an `InvalidBinaryInput` failure. -/
theorem stitchBinary_accepts_nonbinary_sample :
    cropIsBinary (constCrop ("I") 1 1 0 0 2) = false ∧
    (stitchBinary [constCrop ("I") 1 1 0 0 2] ("or")).toOption.map
      (fun i => i.pix 0 0) = some 2 := by
  constructor
  · rfl
  · rfl

/-- C1 counterexample: on two tiles of different widths (5 wide at x = 0,
2 wide at x = 10) the merge allocates `max corner + max size = 10 + 5 = 15`
columns, not the bounding-box width `max (corner + size) = 12` the claim
states. -/
theorem stitchCrops_mixed_size_dims_counterexample :
    (stitchCrops [constCrop ("L") 5 1 0 0 0, constCrop ("L") 2 1 10 0 0]
        ("or")).toOption.map PILImage.size = some (15, 1) ∧
    specStitchDims [constCrop ("L") 5 1 0 0 0, constCrop ("L") 2 1 10 0 0] =
      (12, 1) ∧
    ((15, 1) : Nat × Nat) ≠ (12, 1) := by
  refine ⟨rfl, rfl, by decide⟩

/-- C4 counterexample: a pixel covered by three tiles of value 4 under
`average` receives 3 (the fold starts by blending the zero buffer with the
first tile, truncating at each step), not the
`average(average(t1, t2), t3) = 4` the claim names. -/
theorem stitchCrops_three_overlap_average_counterexample :
    (stitchCrops [constCrop ("L") 1 1 0 0 4, constCrop ("L") 1 1 0 0 4,
        constCrop ("L") 1 1 0 0 4] ("average")).toOption.map
      (fun i => i.pix 0 0) = some 3 ∧
    ((4 + 4) / 2 + 4) / 2 = 4 ∧ (3 : Nat) ≠ 4 := by
  refine ⟨rfl, rfl, by decide⟩

/-- C3 counterexample: a single tile (trivially pairwise disjoint) with
sample 1 merged under `and` produces 0 — the tile is ANDed against the
zero-initialised buffer — while direct placement gives 1; under `average`
it produces 0 as well.  The merged output is not independent of the blend
operator on disjoint tiles. -/
theorem stitchCrops_disjoint_operator_dependent_counterexample :
    List.Pairwise (fun a b => footprintsDisjoint a b = true)
      [constCrop ("L") 1 1 0 0 1] ∧
    (stitchCrops [constCrop ("L") 1 1 0 0 1] ("and")).toOption.map
      (fun i => i.pix 0 0) = some 0 ∧
    (stitchCrops [constCrop ("L") 1 1 0 0 1] ("average")).toOption.map
      (fun i => i.pix 0 0) = some 0 ∧
    directPlace [constCrop ("L") 1 1 0 0 1] 0 0 = 1 := by
  refine ⟨List.pairwise_singleton .., rfl, rfl, rfl⟩

/-- C5 counterexample: on an 8×8 raster with tile = stride = 4×4 (exact
multiples), `include_excess = true` yields four corners but
`include_excess = false` yields only `[(0, 0)]` — the strict `<` bound of
`range(0, W - tw, sw)` excludes the boundary offset, so `include_excess`
is not a no-op. -/
theorem gridCropCorners_excess_not_noop_counterexample :
    _gridCropCorners (8, 8) (4, 4) none true =
      .ok [(0, 0), (0, 4), (4, 0), (4, 4)] ∧
    _gridCropCorners (8, 8) (4, 4) none false = .ok [(0, 0)] ∧
    _gridCropCorners (8, 8) (4, 4) none true ≠
      _gridCropCorners (8, 8) (4, 4) none false := by
  refine ⟨rfl, rfl, ?_⟩
  rw [show _gridCropCorners (8, 8) (4, 4) none true =
        .ok [(0, 0), (0, 4), (4, 0), (4, 4)] from rfl,
      show _gridCropCorners (8, 8) (4, 4) none false = .ok [(0, 0)] from rfl]
  simp

/-- C7 counterexample: a 6×1 tile on a 4×1 raster (`tw > W`) does not fail:
`_gridCropCorners` returns successfully with the negative, out-of-bounds
corner `(-2, 0)`. -/
theorem gridCropCorners_oversize_no_error_counterexample :
    _gridCropCorners (4, 1) (6, 1) none true = .ok [(-2, 0)] ∧
    (-2 : Int) < 0 := by
  refine ⟨rfl, by decide⟩

/-- C2 counterexample: raster 10×2, tile 2×2, stride (5, 2),
`include_excess = true` produces corners `(0,0), (5,0), (8,0)` whose
footprints miss the in-raster point `(3, 0)`: with stride wider than the
tile the union of footprints has gaps. -/
theorem gridCropCorners_coverage_gap_counterexample :
    _gridCropCorners (10, 2) (2, 2) (some (5, 2)) true =
      .ok [(0, 0), (5, 0), (8, 0)] ∧
    ([(0, 0), (5, 0), (8, 0)] : List (Int × Int)).all
      (fun c => !(coversB (2, 2) c 3 0)) = true ∧
    ((0 : Int) ≤ 3 ∧ (3 : Int) < 10 ∧ (0 : Int) ≤ 0 ∧ (0 : Int) < 2) := by
  refine ⟨rfl, by decide, by decide⟩

/-- C5 (amended): with tile size equal to stride and raster dimensions
exactly divisible by the stride, `_gridCropCorners` with
`include_excess = true` yields corners whose footprints cover every raster
pixel exactly once (a partition with zero overlap).  The claim's other
half — that `include_excess` is then a no-op — is refuted by
`gridCropCorners_excess_not_noop_counterexample`. -/
theorem gridCropCorners_exact_partition (sw sh kw kh : Nat)
    (hsw : 0 < sw) (hsh : 0 < sh) (hkw : 1 ≤ kw) (hkh : 1 ≤ kh) :
    ∃ corners,
      _gridCropCorners ((kw : Int) * sw, (kh : Int) * sh) ((sw : Int), (sh : Int))
          none true = .ok corners ∧
      ∀ x y : Int, 0 ≤ x → x < (kw : Int) * sw → 0 ≤ y → y < (kh : Int) * sh →
        (corners.filter (fun c => coversB ((sw : Int), (sh : Int)) c x y)).length
          = 1 := by
  have hswi : (0 : Int) < (sw : Int) := by omega
  have hshi : (0 : Int) < (sh : Int) := by omega
  have hred : _gridCropCorners ((kw : Int) * sw, (kh : Int) * sh)
      ((sw : Int), (sh : Int)) none true
      = _gridCropCorners ((kw : Int) * sw, (kh : Int) * sh)
        ((sw : Int), (sh : Int)) (some ((sw : Int), (sh : Int))) true := rfl
  refine ⟨_, by rw [hred, gridCropCorners_pos _ _ _ _ _ _ true hswi hshi], ?_⟩
  intro x y hx0 hxW hy0 hyH
  rw [if_pos rfl, if_pos rfl, offsets_exact_eq sw kw hsw hkw,
    offsets_exact_eq sh kh hsh hkh]
  simp only [coversB]
  rw [length_filter_prod _ _ (fun c => c ≤ x && x < c + sw)
      (fun r => r ≤ y && y < r + sh),
    exact_offsets_count_one sw kw hsw x hx0 hxW,
    exact_offsets_count_one sh kh hsh y hy0 hyH]

/-- Witness for `gridCropCorners_exact_partition` on a 8×12 raster with
tile = stride = (2, 3). -/
theorem gridCropCorners_exact_partition_witness :
    ∃ corners,
      _gridCropCorners (((4 : Nat) : Int) * (2 : Nat), ((4 : Nat) : Int) * (3 : Nat))
          (((2 : Nat) : Int), ((3 : Nat) : Int)) none true = .ok corners ∧
      ∀ x y : Int, 0 ≤ x → x < ((4 : Nat) : Int) * (2 : Nat) → 0 ≤ y →
          y < ((4 : Nat) : Int) * (3 : Nat) →
        (corners.filter
          (fun c => coversB (((2 : Nat) : Int), ((3 : Nat) : Int)) c x y)).length
            = 1 :=
  gridCropCorners_exact_partition 2 3 4 4 (by decide) (by decide) (by decide)
    (by decide)

/-- C7 (amended): `_gridCropCorners` performs no dimension validation (see
`gridCropCorners_oversize_no_error_counterexample`), but whenever the
spec's preconditions `tw ≤ W`, `th ≤ H`, `sw > 0`, `sh > 0` do hold, every
returned corner is non-negative and its tile stays inside the raster, for
either value of `include_excess`. -/
theorem gridCropCorners_inbounds (W H tw th sw sh : Int) (b : Bool)
    (htw : tw ≤ W) (hth : th ≤ H) (hsw : 0 < sw) (hsh : 0 < sh) :
    ∃ corners,
      _gridCropCorners (W, H) (tw, th) (some (sw, sh)) b = .ok corners ∧
      ∀ c ∈ corners, 0 ≤ c.1 ∧ c.1 + tw ≤ W ∧ 0 ≤ c.2 ∧ c.2 + th ≤ H := by
  refine ⟨_, gridCropCorners_pos W H tw th sw sh b hsw hsh, ?_⟩
  intro c hc
  rw [mem_prodCorners] at hc
  have h1 := offsets1D_inbounds W tw sw c.1 hsw htw b hc.1
  have h2 := offsets1D_inbounds H th sh c.2 hsh hth b hc.2
  exact ⟨h1.1, h1.2, h2.1, h2.2⟩

/-- Witness for `gridCropCorners_inbounds` on a 10×8 raster, 3×2 tile,
stride (2, 1). -/
theorem gridCropCorners_inbounds_witness :
    ∃ corners,
      _gridCropCorners (10, 8) (3, 2) (some (2, 1)) true = .ok corners ∧
      ∀ c ∈ corners, 0 ≤ c.1 ∧ c.1 + 3 ≤ 10 ∧ 0 ≤ c.2 ∧ c.2 + 2 ≤ 8 :=
  gridCropCorners_inbounds 10 8 3 2 2 1 true (by decide) (by decide) (by decide)
    (by decide)

/-- C2 (amended): with `include_excess = true`, tile ≤ raster, and strides
positive and at most the tile size (the claim's "every strictly positive
stride" fails — see `gridCropCorners_coverage_gap_counterexample`), the
union of the generated tile footprints is exactly the raster rectangle
`[0, W) × [0, H)`. -/
theorem gridCropCorners_cover (W H tw th sw sh : Int)
    (htw : tw ≤ W) (hth : th ≤ H)
    (hsw : 0 < sw) (hsw' : sw ≤ tw) (hsh : 0 < sh) (hsh' : sh ≤ th) :
    ∃ corners,
      _gridCropCorners (W, H) (tw, th) (some (sw, sh)) true = .ok corners ∧
      ∀ x y : Int, ((0 ≤ x ∧ x < W ∧ 0 ≤ y ∧ y < H) ↔
        ∃ c ∈ corners, coversB (tw, th) c x y = true) := by
  refine ⟨_, gridCropCorners_pos W H tw th sw sh true hsw hsh, ?_⟩
  intro x y
  constructor
  · rintro ⟨hx0, hxW, hy0, hyH⟩
    obtain ⟨cx, hcx, hcx1, hcx2⟩ := offsets1D_cover W tw sw x hsw hsw' hx0 hxW
    obtain ⟨cy, hcy, hcy1, hcy2⟩ := offsets1D_cover H th sh y hsh hsh' hy0 hyH
    refine ⟨(cx, cy), ?_, ?_⟩
    · rw [mem_prodCorners]
      constructor
      · rw [if_pos rfl]; exact hcx
      · rw [if_pos rfl]; exact hcy
    · simp only [coversB, Bool.and_eq_true, decide_eq_true_eq]
      exact ⟨⟨hcx1, hcx2⟩, hcy1, hcy2⟩
  · rintro ⟨c, hc, hcov⟩
    rw [mem_prodCorners] at hc
    have h1 := offsets1D_inbounds W tw sw c.1 hsw htw true
      (by rw [if_pos rfl]; exact hc.1)
    have h2 := offsets1D_inbounds H th sh c.2 hsh hth true
      (by rw [if_pos rfl]; exact hc.2)
    simp only [coversB, Bool.and_eq_true, decide_eq_true_eq] at hcov
    omega

/-- Witness for `gridCropCorners_cover` on the spec's 10×10 raster with
4×4 tiles and stride (2, 3). -/
theorem gridCropCorners_cover_witness :
    ∃ corners,
      _gridCropCorners (10, 10) (4, 4) (some (2, 3)) true = .ok corners ∧
      ∀ x y : Int, ((0 ≤ x ∧ x < 10 ∧ 0 ≤ y ∧ y < 10) ↔
        ∃ c ∈ corners, coversB (4, 4) c x y = true) :=
  gridCropCorners_cover 10 10 4 4 2 3 (by decide) (by decide) (by decide)
    (by decide) (by decide) (by decide)

/-- C4 (amended): each output pixel of `stitchCrops` is the left fold, in
tile input order, of the pairwise blend over the samples of the tiles
covering that pixel, starting from the zero buffer — so the first covering
tile is itself blended against 0 (under `average`, three tiles t1 t2 t3
give `avg(avg(avg(0, t1), t2), t3)` with trunc at each step, not
`avg(avg(t1, t2), t3)`; see
`stitchCrops_three_overlap_average_counterexample`). -/
theorem stitchCrops_pixel_fold (c0 : Crop) (crops : List Crop) (method : String)
    (x y : Nat)
    (hmode : ∀ c ∈ c0 :: crops, c.img.mode = c0.img.mode) :
    (stitchCrops (c0 :: crops) method).toOption.map (fun i => i.pix x y) =
      some ((coveringValues (c0 :: crops) x y).foldl (blendPixel method) 0) := by
  have hall : (c0 :: crops).all (fun c => c.img.mode = c0.img.mode) = true := by
    rw [List.all_eq_true]
    intro c hc
    exact decide_eq_true (hmode c hc)
  rw [stitchCrops, if_pos hall]
  show some (List.foldl (placeCrop method) (fun _ _ => 0) (c0 :: crops) x y)
    = some ((coveringValues (c0 :: crops) x y).foldl (blendPixel method) 0)
  exact congrArg some (foldl_placeCrop_eq method (c0 :: crops) (fun _ _ => 0) x y)

/-- Witness for `stitchCrops_pixel_fold`: three overlapping single-pixel
tiles of value 4 under `average`. -/
theorem stitchCrops_pixel_fold_witness :
    (stitchCrops [constCrop ("L") 1 1 0 0 4, constCrop ("L") 1 1 0 0 4,
        constCrop ("L") 1 1 0 0 4] ("average")).toOption.map
      (fun i => i.pix 0 0) =
    some ((coveringValues [constCrop ("L") 1 1 0 0 4, constCrop ("L") 1 1 0 0 4,
        constCrop ("L") 1 1 0 0 4] 0 0).foldl (blendPixel ("average")) 0) :=
  stitchCrops_pixel_fold (constCrop ("L") 1 1 0 0 4)
    [constCrop ("L") 1 1 0 0 4, constCrop ("L") 1 1 0 0 4] ("average") 0 0
    (by decide)

/-- C3 (amended): on pairwise-disjoint tiles the merge equals direct
placement of each tile's samples at its corner for the `or` blend (each
tile is ORed once against the zero buffer); the claim's independence of the
operator fails for `and` and `average` — see
`stitchCrops_disjoint_operator_dependent_counterexample`. -/
theorem stitchCrops_or_disjoint_direct (c0 : Crop) (crops : List Crop)
    (x y : Nat)
    (hdisj : List.Pairwise (fun a b => footprintsDisjoint a b = true) (c0 :: crops))
    (hmode : ∀ c ∈ c0 :: crops, c.img.mode = c0.img.mode) :
    (stitchCrops (c0 :: crops) ("or")).toOption.map (fun i => i.pix x y) =
      some (directPlace (c0 :: crops) x y) := by
  have hall : (c0 :: crops).all (fun c => c.img.mode = c0.img.mode) = true := by
    rw [List.all_eq_true]
    intro c hc
    exact decide_eq_true (hmode c hc)
  rw [stitchCrops, if_pos hall]
  show some (List.foldl (placeCrop ("or")) (fun _ _ => 0) (c0 :: crops) x y)
    = some (directPlace (c0 :: crops) x y)
  refine congrArg some ?_
  rw [foldl_placeCrop_eq, directPlace, foldl_directPlace_eq]
  have hlen := pairwise_disjoint_filter_length (c0 :: crops) x y hdisj
  have hlen' : (coveringValues (c0 :: crops) x y).length ≤ 1 := by
    rw [coveringValues, List.length_map]
    exact hlen
  rcases hv : coveringValues (c0 :: crops) x y with _ | ⟨v, _ | ⟨w, t⟩⟩
  · rfl
  · show blendPixel ("or") 0 v = v
    simp [blendPixel]
  · rw [hv] at hlen'
    simp at hlen'

/-- Witness for `stitchCrops_or_disjoint_direct`: two horizontally
adjacent disjoint 1×1 tiles. -/
theorem stitchCrops_or_disjoint_direct_witness :
    (stitchCrops [constCrop ("L") 1 1 0 0 7, constCrop ("L") 1 1 1 0 9]
        ("or")).toOption.map (fun i => i.pix 0 0) =
      some (directPlace [constCrop ("L") 1 1 0 0 7, constCrop ("L") 1 1 1 0 9]
        0 0) :=
  stitchCrops_or_disjoint_direct (constCrop ("L") 1 1 0 0 7)
    [constCrop ("L") 1 1 1 0 9] 0 0 (by decide) (by decide)

/-- C1 (amended): the merged raster's size is
`(max corner) + (max size)` per axis, which agrees with the claim's
bounding-box formula `max (corner + size)` whenever all tiles share one
size; for mixed sizes the two differ — see
`stitchCrops_mixed_size_dims_counterexample`. -/
theorem stitchCrops_dims_same_size (c0 : Crop) (crops : List Crop)
    (method : String) (tw th : Nat)
    (hsize : ∀ c ∈ c0 :: crops, c.img.size = (tw, th))
    (hmode : ∀ c ∈ c0 :: crops, c.img.mode = c0.img.mode) :
    (stitchCrops (c0 :: crops) method).toOption.map PILImage.size =
      some (specStitchDims (c0 :: crops)) := by
  have hall : (c0 :: crops).all (fun c => c.img.mode = c0.img.mode) = true := by
    rw [List.all_eq_true]
    intro c hc
    exact decide_eq_true (hmode c hc)
  rw [stitchCrops, if_pos hall]
  show some (stitchDims (c0 :: crops)) = some (specStitchDims (c0 :: crops))
  exact congrArg some (stitchDims_same_size c0 crops tw th hsize)

/-- Witness for `stitchCrops_dims_same_size`: two 2×2 tiles at corners
(0,0) and (2,0). -/
theorem stitchCrops_dims_same_size_witness :
    (stitchCrops [constCrop ("L") 2 2 0 0 1, constCrop ("L") 2 2 2 0 1]
        ("average")).toOption.map PILImage.size =
      some (specStitchDims [constCrop ("L") 2 2 0 0 1, constCrop ("L") 2 2 2 0 1]) :=
  stitchCrops_dims_same_size (constCrop ("L") 2 2 0 0 1)
    [constCrop ("L") 2 2 2 0 1] ("average") 2 2 (by decide) (by decide)
